import Mathlib

/-
Verification of the COPY_WALLET_HYPERLIQUID position tracker and dynamic
pair-list service.

Embedding conventions:
- Python floats (position sizes, prices, leverage) are modelled as exact
  rationals `ℚ`; the numeric literals `1e-8` and `1e-6` of the source are
  modelled as the exact rationals `1/100000000` and `1/1000000`.
- Python dicts are modelled as association lists (`Dict α`) with Python's
  insertion-order semantics: updating an existing key keeps its position,
  a new key is appended at the end.
- `datetime` values of the pair-list service are modelled as integer epoch
  seconds; `timedelta(hours=h)` is `3600*h` seconds and `timedelta(days=30)`
  is `2592000` seconds.
- Python `set` objects have unspecified iteration order; `list(set(xs))` is
  modelled by the deterministic deduplication `List.dedup`, and building a
  set element by element is modelled by `setAdd` (append if absent).
- The presentation-only `human_time` field (a `strftime` rendering of the
  timestamp) is not modelled.
-/

namespace CopyWallet

/-! ## Python dict model -/

/-- Association-list model of a Python `dict` keyed by strings. -/
abbrev Dict (α : Type) := List (String × α)

/-- `d[k]` / `d.get(k)`: value of the first (unique) binding of `k`. -/
def dictLookup {α : Type} : Dict α → String → Option α
  | [], _ => none
  | (k', v) :: rest, k => if k' = k then some v else dictLookup rest k

/-- `k in d`. -/
def dictContains {α : Type} (d : Dict α) (k : String) : Bool :=
  (dictLookup d k).isSome

/-- `d[k] = v` with Python dict semantics: an existing key keeps its
position and gets the new value, a fresh key is appended at the end. -/
def dictInsert {α : Type} : Dict α → String → α → Dict α
  | [], k, v => [(k, v)]
  | (k', v') :: rest, k, v =>
      if k' = k then (k, v) :: rest else (k', v') :: dictInsert rest k v

/-- The keys of a dict, in insertion order. -/
def dictKeys {α : Type} (d : Dict α) : List String :=
  d.map Prod.fst

/-! ## track_account.py : data model -/

/-- `PositionSnapshot` dataclass of `track_account.py`. -/
structure PositionSnapshot where
  coin : String
  size : ℚ
  entry_price : ℚ
  position_value : ℚ
  unrealized_pnl : ℚ
  leverage : ℚ
  margin_used : ℚ
  timestamp : Int
deriving DecidableEq, Repr

/-- The `change_type` strings produced by the tracker. -/
inductive ChangeType where
  | opened_long
  | opened_short
  | closed
  | increased
  | decreased
  | flipped
  | modified
deriving DecidableEq, Repr

/-- `PositionChange` dataclass of `track_account.py` (the presentation-only
`human_time` string is not modelled). -/
structure PositionChange where
  coin : String
  change_type : ChangeType
  old_size : Option ℚ
  new_size : ℚ
  old_position_value : Option ℚ
  new_position_value : ℚ
  timestamp : Int
deriving DecidableEq, Repr

/-- The `leverage` field of a raw API position: either a scalar or a
structured value carrying a `value` field. -/
inductive LeverageField where
  | scalar (v : ℚ)
  | structured (v : ℚ)
deriving DecidableEq, Repr

/-- `pos['leverage']['value'] if isinstance(pos['leverage'], dict) else
pos['leverage']`. -/
def LeverageField.value : LeverageField → ℚ
  | .scalar v => v
  | .structured v => v

/-- One entry of the raw payload's per-asset `position` object. -/
structure RawPosition where
  coin : String
  szi : ℚ
  entryPx : ℚ
  positionValue : ℚ
  unrealizedPnl : ℚ
  leverage : LeverageField
  marginUsed : ℚ
deriving DecidableEq, Repr

/-- One entry of `assetPositions`; `position` is optional
(`'position' in asset_pos`). -/
structure AssetPosition where
  type : String
  position : Option RawPosition
deriving DecidableEq, Repr

/-- The raw account-state payload; `time` is optional (`data.get('time', _)`). -/
structure Payload where
  time : Option Int
  assetPositions : List AssetPosition
deriving DecidableEq, Repr

/-! ## track_account.py : snapshot extraction -/

/-- Loop body of `_extract_positions` for one `assetPositions` entry
(the guard `asset_pos['type'] == 'oneWay' and 'position' in asset_pos`,
then the zero-size skip). -/
def extractStep (timestamp : Int) (positions : Dict PositionSnapshot) :
    AssetPosition → Dict PositionSnapshot
  | ⟨_, none⟩ => positions
  | ⟨tp, some pos⟩ =>
      if tp = "oneWay" then
        if pos.szi = 0 then positions
        else
          dictInsert positions pos.coin
            { coin := pos.coin
              size := pos.szi
              entry_price := pos.entryPx
              position_value := pos.positionValue
              unrealized_pnl := pos.unrealizedPnl
              leverage := pos.leverage.value
              margin_used := pos.marginUsed
              timestamp := timestamp }
      else positions

/-- `PositionTracker._extract_positions`: keep one-way positions with a
non-zero signed size, normalising the leverage field to a scalar. -/
def extractPositions (data : Payload) : Dict PositionSnapshot :=
  data.assetPositions.foldl (extractStep (data.time.getD 0)) []

/-! ## track_account.py : change detection -/

/-- Absolute size-difference threshold `1e-8` of `_detect_changes`. -/
def sizeThreshold : ℚ := 1/100000000

/-- Leverage-difference threshold `1e-8` of `_detect_changes`. -/
def leverageThreshold : ℚ := 1/100000000

/-- Entry-price-difference threshold `1e-6` of `_detect_changes`. -/
def entryPriceThreshold : ℚ := 1/1000000

/-- `PositionTracker._determine_change_type`. -/
def determineChangeType (old_size new_size : ℚ) : ChangeType :=
  if (old_size > 0 ∧ new_size < 0) ∨ (old_size < 0 ∧ new_size > 0) then
    .flipped
  else if old_size > 0 ∧ new_size > 0 then
    if new_size > old_size then .increased else .decreased
  else if old_size < 0 ∧ new_size < 0 then
    if |new_size| > |old_size| then .increased else .decreased
  else
    .modified

/-- Timestamp used for all events of a round:
`list(current_positions.values())[0].timestamp` if any current position
exists, else the current wall-clock epoch milliseconds. -/
def roundTimestamp (curr : Dict PositionSnapshot) (nowMs : Int) : Int :=
  match curr with
  | [] => nowMs
  | (_, p) :: _ => p.timestamp

/-- The `closed` event built in the first loop of `_detect_changes`. -/
def closedChange (coin : String) (old_pos : PositionSnapshot) (ts : Int) :
    PositionChange :=
  { coin := coin
    change_type := .closed
    old_size := some old_pos.size
    new_size := 0
    old_position_value := some old_pos.position_value
    new_position_value := 0
    timestamp := ts }

/-- The `opened_long` / `opened_short` event of `_detect_changes`. -/
def openedChange (coin : String) (current_pos : PositionSnapshot) (ts : Int) :
    PositionChange :=
  { coin := coin
    change_type := if current_pos.size > 0 then .opened_long else .opened_short
    old_size := none
    new_size := current_pos.size
    old_position_value := none
    new_position_value := current_pos.position_value
    timestamp := ts }

/-- The size-change event of `_detect_changes` (kind from
`_determine_change_type`). -/
def sizeChange (coin : String) (old_pos current_pos : PositionSnapshot)
    (ts : Int) : PositionChange :=
  { coin := coin
    change_type := determineChangeType old_pos.size current_pos.size
    old_size := some old_pos.size
    new_size := current_pos.size
    old_position_value := some old_pos.position_value
    new_position_value := current_pos.position_value
    timestamp := ts }

/-- The `modified` event of `_detect_changes`. -/
def modifiedChange (coin : String) (old_pos current_pos : PositionSnapshot)
    (ts : Int) : PositionChange :=
  { coin := coin
    change_type := .modified
    old_size := some old_pos.size
    new_size := current_pos.size
    old_position_value := some old_pos.position_value
    new_position_value := current_pos.position_value
    timestamp := ts }

/-- First loop of `_detect_changes`: a `closed` event for every coin that is
in the last map but not in the current one. -/
def closedEvents (last curr : Dict PositionSnapshot) (ts : Int) :
    List PositionChange :=
  last.filterMap (fun entry =>
    if dictContains curr entry.1 then none
    else some (closedChange entry.1 entry.2 ts))

/-- Body of the second loop of `_detect_changes` for one current position:
at most one event (opened / size change / modified / none). -/
def currEvent (last : Dict PositionSnapshot) (ts : Int) (coin : String)
    (current_pos : PositionSnapshot) : List PositionChange :=
  match dictLookup last coin with
  | none => [openedChange coin current_pos ts]
  | some old_pos =>
      if |current_pos.size - old_pos.size| > sizeThreshold then
        [sizeChange coin old_pos current_pos ts]
      else if |current_pos.leverage - old_pos.leverage| > leverageThreshold ∨
          |current_pos.entry_price - old_pos.entry_price| > entryPriceThreshold then
        [modifiedChange coin old_pos current_pos ts]
      else
        []

/-- `PositionTracker._detect_changes` (`last` is `self.last_positions`). -/
def detectChanges (last curr : Dict PositionSnapshot) (nowMs : Int) :
    List PositionChange :=
  closedEvents last curr (roundTimestamp curr nowMs) ++
    curr.flatMap (fun entry =>
      currEvent last (roundTimestamp curr nowMs) entry.1 entry.2)

/-! ## track_account.py : tracker state and the main entry point -/

/-- The mutable collections of `PositionTracker` (file I/O is an external
effect and is not part of the state transition). -/
structure TrackerState where
  position_history : Dict (List PositionSnapshot)
  last_positions : Dict PositionSnapshot
  changes_log : List PositionChange
deriving DecidableEq, Repr

/-- The literal list of change types against which `track_positions` checks
membership when deciding whether to append a snapshot to the history. -/
def historyChangeTypes : List ChangeType :=
  [.opened_long, .opened_short, .closed, .increased, .decreased, .flipped,
   .modified]

/-- `PositionTracker.track_positions`: returns the new state and the list of
detected changes. -/
def trackPositions (st : TrackerState) (data : Payload) (nowMs : Int) :
    TrackerState × List PositionChange :=
  let current_positions := extractPositions data
  let changes := detectChanges st.last_positions current_positions nowMs
  let history :=
    if changes.isEmpty then st.position_history
    else
      current_positions.foldl (fun h entry =>
        let h := if dictContains h entry.1 then h else dictInsert h entry.1 []
        if changes.any (fun change =>
            change.coin == entry.1 &&
            historyChangeTypes.contains change.change_type) then
          dictInsert h entry.1 ((dictLookup h entry.1).getD [] ++ [entry.2])
        else h) st.position_history
  ({ position_history := history
     last_positions := current_positions
     changes_log := st.changes_log ++ changes }, changes)

/-- The set of coins recorded in the live last-positions map; this is what
the pair-list service derives its fallback set from. -/
def lastPositionCoins (st : TrackerState) : Finset String :=
  (dictKeys st.last_positions).toFinset

/-- A concrete long position of size 5 (for concrete instantiations). -/
def snapLong5 : PositionSnapshot :=
  { coin := "X", size := 5, entry_price := 10, position_value := 50
    unrealized_pnl := 0, leverage := 2, margin_used := 25, timestamp := 1000 }

/-- A concrete short position of size -2. -/
def snapShort2 : PositionSnapshot :=
  { coin := "X", size := -2, entry_price := 11, position_value := 22
    unrealized_pnl := 0, leverage := 2, margin_used := 11, timestamp := 2000 }

/-- Same position as `snapLong5` but with leverage changed from 2 to 3. -/
def snapLong5Lev3 : PositionSnapshot :=
  { coin := "X", size := 5, entry_price := 10, position_value := 50
    unrealized_pnl := 0, leverage := 3, margin_used := 25, timestamp := 2000 }

/-! ## dynamic_pairlist_service.py : data model -/

/-- `PairInfo` dataclass of `dynamic_pairlist_service.py`; `datetime`
values are modelled as integer epoch seconds. -/
structure PairInfo where
  coin : String
  pair : String
  first_seen : Int
  last_seen : Int
  total_trades : Int
  is_active : Bool
deriving DecidableEq, Repr

/-- The in-memory state and configuration of `DynamicPairListService`. -/
structure ServiceState where
  tracked_pairs : Dict PairInfo
  current_pairlist : List String
  last_update : Option Int
  base_pairs : List String
  min_pair_age_hours : Int
  max_pairs : Nat
deriving DecidableEq, Repr

/-- The hard-coded `self.base_pairs` list. -/
def defaultBasePairs : List String :=
  ["BTC/USDC:USDC", "ETH/USDC:USDC", "SOL/USDC:USDC", "BNB/USDC:USDC",
   "XRP/USDC:USDC"]

/-- The pair string built for a coin. -/
def pairOfCoin (coin : String) : String :=
  coin ++ "/USDC:USDC"

/-- `pair.split('/')[0]`: the prefix of the pair before the first slash. -/
def pairCoin (pair : String) : String :=
  ⟨pair.data.takeWhile (fun ch => ch ≠ '/')⟩

/-- Python set insertion `s.add(x)` on a duplicate-free list model of a set. -/
def setAdd (s : List String) (x : String) : List String :=
  if x ∈ s then s else s ++ [x]

/-- `list(set(xs))`. Python's set iteration order is unspecified; it is
modelled by the deterministic deduplication `List.dedup`. -/
def pySetList (xs : List String) : List String :=
  xs.dedup

/-! ## dynamic_pairlist_service.py : tracked-pair maintenance -/

/-- `DynamicPairListService._update_tracked_pairs`, with the fetched set of
currently open coins passed in (the fetch itself is the collaborator
modelled by `getCurrentPositions`) and a single `now` instant. -/
def updateTrackedPairs (tracked : Dict PairInfo) (currentCoins : List String)
    (now : Int) : Dict PairInfo :=
  let marked := tracked.map (fun e =>
    if e.1 ∈ currentCoins then
      (e.1, { e.2 with is_active := true, last_seen := now })
    else
      (e.1, { e.2 with is_active := false }))
  currentCoins.foldl (fun acc coin =>
    if dictContains acc coin then acc
    else
      dictInsert acc coin
        { coin := coin
          pair := pairOfCoin coin
          first_seen := now
          last_seen := now
          total_trades := 1
          is_active := true }) marked

/-! ## dynamic_pairlist_service.py : eligibility filter -/

/-- `timedelta(hours=self.min_pair_age_hours)` in seconds. -/
def minPairAgeSeconds (hours : Int) : Int :=
  3600 * hours

/-- `timedelta(days=30)` in seconds. -/
def thirtyDaysSeconds : Int :=
  2592000

/-- The inclusion criterion of `_filter_pairs_by_criteria` for one tracked
pair: (old enough OR currently active) AND traded in the last 30 days. -/
def meetsCriteria (now minHours : Int) (info : PairInfo) : Prop :=
  (now - info.first_seen ≥ minPairAgeSeconds minHours ∨
    info.is_active = true) ∧
  now - info.last_seen ≤ thirtyDaysSeconds

instance instDecidableMeetsCriteria (now minHours : Int) (info : PairInfo) :
    Decidable (meetsCriteria now minHours info) := by
  unfold meetsCriteria
  exact inferInstance

/-- The pre-cap candidate list of `_filter_pairs_by_criteria`: the base
pairs followed by every tracked pair that is not a base pair and meets the
criteria, in dict order. -/
def eligiblePairs (st : ServiceState) (now : Int) : List String :=
  st.base_pairs ++ st.tracked_pairs.filterMap (fun e =>
    if e.2.pair ∈ st.base_pairs then none
    else if meetsCriteria now st.min_pair_age_hours e.2 then some e.2.pair
    else none)

/-- The `sort_key` closure of `_filter_pairs_by_criteria`: pairs whose coin
is untracked (the base pairs, per the source comment) get `(1, 0, 0)`;
tracked pairs get `(0 if active else 1, -last_seen, -total_trades)`. -/
def sortKey (tracked : Dict PairInfo) (pair : String) : Nat × Int × Int :=
  match dictLookup tracked (pairCoin pair) with
  | none => (1, 0, 0)
  | some info =>
      ((if info.is_active then 0 else 1), -info.last_seen, -info.total_trades)

/-- Lexicographic comparison of sort keys (Python tuple ordering). -/
def keyLe (k1 k2 : Nat × Int × Int) : Bool :=
  decide (k1.1 < k2.1) ||
    (decide (k1.1 = k2.1) &&
      (decide (k1.2.1 < k2.2.1) ||
        (decide (k1.2.1 = k2.2.1) && decide (k1.2.2 ≤ k2.2.2))))

/-- Stable insertion into an ascending list: the new element goes after
every element `y` with `le y x`, so equal keys keep their original order. -/
def insertSorted {α : Type} (le : α → α → Bool) (x : α) : List α → List α
  | [] => [x]
  | y :: ys => if le y x then y :: insertSorted le x ys else x :: y :: ys

/-- Stable ascending sort (insertion sort). Python's `list.sort` is a
stable ascending sort, and for a total preorder every stable ascending sort
produces the same output list. -/
def stableSort {α : Type} (le : α → α → Bool) (l : List α) : List α :=
  l.foldl (fun acc x => insertSorted le x acc) []

/-- `DynamicPairListService._filter_pairs_by_criteria`: candidates, then
sort-and-truncate when the candidate count exceeds `max_pairs`, then
`list(set(...))`. -/
def filterPairsByCriteria (st : ServiceState) (now : Int) : List String :=
  pySetList
    (if st.max_pairs < (eligiblePairs st now).length then
      (stableSort (fun p q =>
          keyLe (sortKey st.tracked_pairs p) (sortKey st.tracked_pairs q))
        (eligiblePairs st now)).take st.max_pairs
    else eligiblePairs st now)

/-- The pair list computed by one `_update_pairlist` run: tracked pairs are
refreshed first, then the filter runs. -/
def computedPairlist (st : ServiceState) (currentCoins : List String)
    (now : Int) : List String :=
  filterPairsByCriteria
    { st with
        tracked_pairs := updateTrackedPairs st.tracked_pairs currentCoins now }
    now

/-- `DynamicPairListService._update_pairlist`: refresh the tracked pairs,
recompute the list, and publish it (setting `last_update`) exactly when the
new list differs from `self.current_pairlist` under Python list `!=`. -/
def updatePairlist (st : ServiceState) (currentCoins : List String)
    (now : Int) : ServiceState :=
  if computedPairlist st currentCoins now ≠ st.current_pairlist then
    { st with
        tracked_pairs := updateTrackedPairs st.tracked_pairs currentCoins now
        current_pairlist := computedPairlist st currentCoins now
        last_update := some now }
  else
    { st with
        tracked_pairs := updateTrackedPairs st.tracked_pairs currentCoins now }

/-! ## dynamic_pairlist_service.py : position fetch with fallback chain -/

/-- Coin-set extraction of `_get_current_positions` on a successful fetch:
one-way positions with non-zero size. -/
def serviceExtractCoins (data : Payload) : List String :=
  data.assetPositions.foldl (fun coins ap =>
    match ap with
    | ⟨tp, some pos⟩ =>
        if tp = "oneWay" then
          if pos.szi ≠ 0 then setAdd coins pos.coin else coins
        else coins
    | ⟨_, none⟩ => coins) []

/-- Outcome of the live API fetch (an exception is `failure`). -/
inductive FetchOutcome where
  | success (data : Payload)
  | failure
deriving DecidableEq, Repr

/-- Outcome of reading `last_positions.csv`: the file may be missing, the
read may raise, or it yields the coin column of its rows. -/
inductive FileReadOutcome where
  | missing
  | failure
  | rows (coins : List String)
deriving DecidableEq, Repr

/-- `DynamicPairListService._get_fallback_positions`: the persisted coin
set, or the empty set when the file is missing or the read fails. -/
def getFallbackPositions : FileReadOutcome → List String
  | .missing => []
  | .failure => []
  | .rows coins => coins.foldl setAdd []

/-- `DynamicPairListService._get_default_popular_pairs`. -/
def getDefaultPopularPairs : List String :=
  ["BTC", "ETH", "SOL", "AVAX", "DOGE", "XRP", "ADA", "LINK", "AAVE", "LDO",
   "TRX", "PENGU", "TRUMP", "FARTCOIN", "kPEPE", "NEIROETH", "BIO", "WLFI",
   "kFLOKI"]

/-- `DynamicPairListService._get_current_positions`: live data on success;
on failure the persisted set if non-empty, else the static default set. -/
def getCurrentPositions (fetch : FetchOutcome) (file : FileReadOutcome) :
    List String :=
  match fetch with
  | .success data => serviceExtractCoins data
  | .failure =>
      if (getFallbackPositions file).isEmpty then getDefaultPopularPairs
      else getFallbackPositions file

/-! ## Concrete service states for counterexamples and witnesses -/

/-- A tracked pair that is currently active (seen at time 1000). -/
def activePair (c : String) : PairInfo :=
  { coin := c, pair := pairOfCoin c, first_seen := 0, last_seen := 1000
    total_trades := 1, is_active := true }

/-- Seven active tracked non-base coins. -/
def c1Tracked : Dict PairInfo :=
  [("AAA", activePair "AAA"), ("BBB", activePair "BBB"),
   ("CCC", activePair "CCC"), ("DDD", activePair "DDD"),
   ("EEE", activePair "EEE"), ("FFF", activePair "FFF"),
   ("GGG", activePair "GGG")]

/-- A service state with `max_pairs = 6` (more than the 5 base pairs) and
seven active tracked candidates, so truncation applies. -/
def c1State : ServiceState :=
  { tracked_pairs := c1Tracked
    current_pairlist := []
    last_update := none
    base_pairs := defaultBasePairs
    min_pair_age_hours := 1
    max_pairs := 6 }

/-- Two old tracked coins, neither currently active. -/
def c2Tracked : Dict PairInfo :=
  [("AAA", { coin := "AAA", pair := pairOfCoin "AAA", first_seen := 0
             last_seen := 0, total_trades := 1, is_active := false }),
   ("ZZZ", { coin := "ZZZ", pair := pairOfCoin "ZZZ", first_seen := 0
             last_seen := 50, total_trades := 1, is_active := false })]

/-- Initial service state for the reordering counterexample. -/
def c2State0 : ServiceState :=
  { tracked_pairs := c2Tracked
    current_pairlist := []
    last_update := none
    base_pairs := defaultBasePairs
    min_pair_age_hours := 1
    max_pairs := 6 }

/-- The state after a first refresh at time 10000 in which only `AAA` is
open. -/
def c2State1 : ServiceState :=
  updatePairlist c2State0 ["AAA"] 10000

/-- The events that `_detect_changes` emits for one particular coin. -/
def eventsFor (c : String) (events : List PositionChange) :
    List PositionChange :=
  events.filter (fun ev => ev.coin == c)

/-- The counterexample state with the cap raised to the default 50, so no
truncation occurs. -/
def c1StateBig : ServiceState :=
  { c1State with max_pairs := 50 }

/-! ## Lemmas about the Python dict model -/

theorem dictContains_of_mem {α : Type} {d : Dict α} {k : String} {v : α}
    (h : (k, v) ∈ d) : dictContains d k = true := by
  induction d with
  | nil => cases h
  | cons hd tl ih =>
    obtain ⟨k', v'⟩ := hd
    rcases List.mem_cons.mp h with h1 | h1
    · cases h1
      simp [dictContains, dictLookup]
    · by_cases hk : k' = k
      · simp [dictContains, dictLookup, hk]
      · simpa [dictContains, dictLookup, hk] using ih h1

theorem dictLookup_eq_of_mem {α : Type} {d : Dict α} {k : String} {v : α}
    (hnd : (dictKeys d).Nodup) (h : (k, v) ∈ d) : dictLookup d k = some v := by
  induction d with
  | nil => cases h
  | cons hd tl ih =>
    obtain ⟨k', v'⟩ := hd
    rw [dictKeys, List.map_cons, List.nodup_cons] at hnd
    rcases List.mem_cons.mp h with h1 | h1
    · cases h1
      simp [dictLookup]
    · have hk : k' ≠ k := by
        intro he
        exact hnd.1 (he ▸ (List.mem_map.mpr ⟨(k, v), h1, rfl⟩))
      simpa [dictLookup, hk] using ih hnd.2 h1

theorem mem_of_dictLookup_eq {α : Type} {d : Dict α} {k : String} {v : α}
    (h : dictLookup d k = some v) : (k, v) ∈ d := by
  induction d with
  | nil => simp [dictLookup] at h
  | cons hd tl ih =>
    obtain ⟨k', v'⟩ := hd
    by_cases hk : k' = k
    · subst hk
      have h' : v' = v := by simpa [dictLookup] using h
      subst h'
      exact List.mem_cons_self _ _
    · simp only [dictLookup, if_neg hk] at h
      exact List.mem_cons_of_mem _ (ih h)

theorem mem_dictInsert {α : Type} {d : Dict α} {k a : String} {v b : α}
    (h : (a, b) ∈ dictInsert d k v) : (a = k ∧ b = v) ∨ (a, b) ∈ d := by
  induction d with
  | nil => simpa [dictInsert] using h
  | cons hd tl ih =>
    obtain ⟨k', v'⟩ := hd
    by_cases hk : k' = k
    · have h1 : (a = k ∧ b = v) ∨ (a, b) ∈ tl := by
        simpa [dictInsert, hk] using h
      rcases h1 with h1 | h1
      · exact Or.inl h1
      · exact Or.inr (List.mem_cons_of_mem _ h1)
    · have h1 : (a = k' ∧ b = v') ∨ (a, b) ∈ dictInsert tl k v := by
        simpa [dictInsert, hk] using h
      rcases h1 with ⟨ha, hb⟩ | h1
      · subst ha
        subst hb
        exact Or.inr (List.mem_cons_self _ _)
      · rcases ih h1 with h2 | h2
        · exact Or.inl h2
        · exact Or.inr (List.mem_cons_of_mem _ h2)

theorem dictKeys_dictInsert {α : Type} (d : Dict α) (k : String) (v : α) :
    dictKeys (dictInsert d k v) = dictKeys d ∨
    dictKeys (dictInsert d k v) = dictKeys d ++ [k] := by
  induction d with
  | nil => right; simp [dictInsert, dictKeys]
  | cons hd tl ih =>
    obtain ⟨k', v'⟩ := hd
    by_cases hk : k' = k
    · left
      simp [dictInsert, hk, dictKeys]
    · rcases ih with h | h
      · left
        simp only [dictInsert, if_neg hk, dictKeys, List.map_cons]
        exact congrArg _ h
      · right
        simp only [dictInsert, if_neg hk, dictKeys, List.map_cons,
          List.cons_append]
        exact congrArg _ h

theorem dictKeys_dictInsert_nodup {α : Type} {d : Dict α} (k : String) (v : α)
    (hnd : (dictKeys d).Nodup) : (dictKeys (dictInsert d k v)).Nodup := by
  induction d with
  | nil => simp [dictInsert, dictKeys]
  | cons hd tl ih =>
    obtain ⟨k', v'⟩ := hd
    simp only [dictKeys, List.map_cons, List.nodup_cons] at hnd
    by_cases hk : k' = k
    · subst hk
      simpa [dictInsert, dictKeys] using hnd
    · simp only [dictInsert, if_neg hk, dictKeys, List.map_cons,
        List.nodup_cons]
      refine ⟨?_, ih hnd.2⟩
      intro hmem
      rcases dictKeys_dictInsert tl k v with h2 | h2 <;>
        rw [show List.map Prod.fst (dictInsert tl k v) =
          dictKeys (dictInsert tl k v) from rfl, h2] at hmem
      · exact hnd.1 hmem
      · rcases List.mem_append.mp hmem with h3 | h3
        · exact hnd.1 h3
        · exact hk (List.mem_singleton.mp h3)

/-! ## Lemmas about change detection -/

theorem currEvent_none {last : Dict PositionSnapshot} {ts : Int} {c : String}
    {p : PositionSnapshot} (h : dictLookup last c = none) :
    currEvent last ts c p = [openedChange c p ts] := by
  unfold currEvent
  rw [h]

theorem currEvent_some {last : Dict PositionSnapshot} {ts : Int} {c : String}
    {p old_pos : PositionSnapshot} (h : dictLookup last c = some old_pos) :
    currEvent last ts c p =
      (if |p.size - old_pos.size| > sizeThreshold then
        [sizeChange c old_pos p ts]
      else if |p.leverage - old_pos.leverage| > leverageThreshold ∨
          |p.entry_price - old_pos.entry_price| > entryPriceThreshold then
        [modifiedChange c old_pos p ts]
      else []) := by
  unfold currEvent
  rw [h]

theorem currEvent_coin {last : Dict PositionSnapshot} {ts : Int} {c : String}
    {p : PositionSnapshot} {ev : PositionChange}
    (h : ev ∈ currEvent last ts c p) : ev.coin = c := by
  cases hl : dictLookup last c with
  | none =>
    rw [currEvent_none hl] at h
    rw [List.mem_singleton.mp h]
    rfl
  | some old_pos =>
    rw [currEvent_some hl] at h
    split at h
    · rw [List.mem_singleton.mp h]
      rfl
    · split at h
      · rw [List.mem_singleton.mp h]
        rfl
      · exact absurd h (List.not_mem_nil _)

theorem eventsFor_closedEvents_of_contains {last curr : Dict PositionSnapshot}
    {ts : Int} {c : String} (h : dictContains curr c = true) :
    eventsFor c (closedEvents last curr ts) = [] := by
  unfold eventsFor closedEvents
  induction last with
  | nil => rfl
  | cons hd tl ih =>
    obtain ⟨k', old⟩ := hd
    by_cases hk : dictContains curr k'
    · simpa [List.filterMap_cons, hk] using ih
    · have hne : k' ≠ c := fun he => by rw [he] at hk; exact hk h
      simpa [List.filterMap_cons, hk, List.filter_cons, closedChange, hne]
        using ih

theorem eventsFor_flatMap_not_mem {last : Dict PositionSnapshot} {ts : Int}
    {curr : Dict PositionSnapshot} {c : String} (h : c ∉ dictKeys curr) :
    eventsFor c (curr.flatMap
      (fun entry => currEvent last ts entry.1 entry.2)) = [] := by
  induction curr with
  | nil => rfl
  | cons hd tl ih =>
    obtain ⟨k', p⟩ := hd
    simp only [dictKeys, List.map_cons, List.mem_cons] at h
    push_neg at h
    unfold eventsFor
    rw [List.flatMap_cons, List.filter_append]
    have h1 : List.filter (fun ev => ev.coin == c)
        (currEvent last ts k' p) = [] := by
      rw [List.filter_eq_nil_iff]
      intro ev hev
      have hc := currEvent_coin hev
      simp only [beq_iff_eq, hc]
      exact fun he => h.1 he.symm
    rw [h1, List.nil_append]
    exact ih h.2

theorem eventsFor_flatMap {last : Dict PositionSnapshot} {ts : Int}
    {curr : Dict PositionSnapshot} {c : String} {p : PositionSnapshot}
    (hnd : (dictKeys curr).Nodup) (hmem : (c, p) ∈ curr) :
    eventsFor c (curr.flatMap
      (fun entry => currEvent last ts entry.1 entry.2)) =
      currEvent last ts c p := by
  induction curr with
  | nil => cases hmem
  | cons hd tl ih =>
    obtain ⟨k', q⟩ := hd
    simp only [dictKeys, List.map_cons, List.nodup_cons] at hnd
    unfold eventsFor
    rw [List.flatMap_cons, List.filter_append]
    rcases List.mem_cons.mp hmem with h1 | h1
    · obtain ⟨rfl, rfl⟩ := Prod.mk.inj h1
      have h2 : List.filter (fun ev => ev.coin == c)
          (currEvent last ts c p) = currEvent last ts c p := by
        rw [List.filter_eq_self]
        intro ev hev
        simp [currEvent_coin hev]
      have h3 : eventsFor c (tl.flatMap
          (fun entry => currEvent last ts entry.1 entry.2)) = [] :=
        eventsFor_flatMap_not_mem hnd.1
      rw [h2]
      rw [eventsFor] at h3
      rw [h3, List.append_nil]
    · have hc : c ∈ dictKeys tl :=
        List.mem_map.mpr ⟨(c, p), h1, rfl⟩
      have hk : k' ≠ c := fun he => hnd.1 (he ▸ hc)
      have h2 : List.filter (fun ev => ev.coin == c)
          (currEvent last ts k' q) = [] := by
        rw [List.filter_eq_nil_iff]
        intro ev hev
        simp only [beq_iff_eq, currEvent_coin hev]
        exact hk
      rw [h2, List.nil_append]
      exact ih hnd.2 h1

theorem eventsFor_detectChanges {last curr : Dict PositionSnapshot}
    {nowMs : Int} {c : String} {p : PositionSnapshot}
    (hnd : (dictKeys curr).Nodup) (hmem : (c, p) ∈ curr) :
    eventsFor c (detectChanges last curr nowMs) =
      currEvent last (roundTimestamp curr nowMs) c p := by
  unfold detectChanges eventsFor
  rw [List.filter_append]
  have h1 := @eventsFor_closedEvents_of_contains last curr
    (roundTimestamp curr nowMs) c (dictContains_of_mem hmem)
  rw [eventsFor] at h1
  rw [h1, List.nil_append]
  have h2 := @eventsFor_flatMap last (roundTimestamp curr nowMs) curr c p
    hnd hmem
  rw [eventsFor] at h2
  exact h2

theorem determineChangeType_mem (o n : ℚ) :
    determineChangeType o n = .flipped ∨ determineChangeType o n = .increased ∨
    determineChangeType o n = .decreased ∨
    determineChangeType o n = .modified := by
  unfold determineChangeType
  split
  · exact Or.inl rfl
  · split
    · split
      · exact Or.inr (Or.inl rfl)
      · exact Or.inr (Or.inr (Or.inl rfl))
    · split
      · split
        · exact Or.inr (Or.inl rfl)
        · exact Or.inr (Or.inr (Or.inl rfl))
      · exact Or.inr (Or.inr (Or.inr rfl))

/-! ## Lemmas about snapshot extraction -/

theorem extractStep_keys_nodup {acc : Dict PositionSnapshot} (t : Int)
    (ap : AssetPosition) (h : (dictKeys acc).Nodup) :
    (dictKeys (extractStep t acc ap)).Nodup := by
  obtain ⟨tp, _ | pos⟩ := ap
  · exact h
  · rw [extractStep]
    by_cases h1 : tp = "oneWay"
    · rw [if_pos h1]
      by_cases h2 : pos.szi = 0
      · rwa [if_pos h2]
      · rw [if_neg h2]
        exact dictKeys_dictInsert_nodup _ _ h
    · rwa [if_neg h1]

theorem extract_keys_nodup (data : Payload) :
    (dictKeys (extractPositions data)).Nodup := by
  unfold extractPositions
  have haux : ∀ (l : List AssetPosition) (acc : Dict PositionSnapshot),
      (dictKeys acc).Nodup →
      (dictKeys (l.foldl (extractStep (data.time.getD 0)) acc)).Nodup := by
    intro l
    induction l with
    | nil => intro acc h; exact h
    | cons hd tl ih =>
      intro acc h
      exact ih _ (extractStep_keys_nodup _ hd h)
  exact haux _ [] (by simp [dictKeys])

theorem extractStep_size_ne {acc : Dict PositionSnapshot} {t : Int}
    {ap : AssetPosition} {c : String} {p : PositionSnapshot}
    (h : ∀ c' p', (c', p') ∈ acc → p'.size ≠ 0)
    (hm : (c, p) ∈ extractStep t acc ap) : p.size ≠ 0 := by
  obtain ⟨tp, _ | pos⟩ := ap
  · exact h c p hm
  · rw [extractStep] at hm
    by_cases h1 : tp = "oneWay"
    · rw [if_pos h1] at hm
      by_cases h2 : pos.szi = 0
      · rw [if_pos h2] at hm
        exact h c p hm
      · rw [if_neg h2] at hm
        rcases mem_dictInsert hm with ⟨_, hp⟩ | hmem
        · rw [hp]
          exact h2
        · exact h c p hmem
    · rw [if_neg h1] at hm
      exact h c p hm

theorem extract_size_ne (data : Payload) (c : String) (p : PositionSnapshot)
    (hm : (c, p) ∈ extractPositions data) : p.size ≠ 0 := by
  unfold extractPositions at hm
  have haux : ∀ (l : List AssetPosition) (acc : Dict PositionSnapshot),
      (∀ c' p', (c', p') ∈ acc → p'.size ≠ 0) →
      (c, p) ∈ l.foldl (extractStep (data.time.getD 0)) acc → p.size ≠ 0 := by
    intro l
    induction l with
    | nil => intro acc h hm2; exact h c p hm2
    | cons hd tl ih =>
      intro acc h hm2
      refine ih _ ?_ hm2
      intro c' p' hm3
      exact extractStep_size_ne h hm3
  exact haux _ [] (by intro c' p' h0; cases h0) hm

/-! ## A round against an unchanged snapshot map produces no events -/

theorem flatMap_eq_nil_of_forall {α β : Type} {l : List α} {f : α → List β}
    (h : ∀ a ∈ l, f a = []) : l.flatMap f = [] := by
  induction l with
  | nil => rfl
  | cons hd tl ih =>
    rw [List.flatMap_cons, h hd (List.mem_cons_self _ _), List.nil_append]
    exact ih fun a ha => h a (List.mem_cons_of_mem _ ha)

theorem currEvent_self {d : Dict PositionSnapshot} {ts : Int} {c : String}
    {p : PositionSnapshot} (hnd : (dictKeys d).Nodup) (hm : (c, p) ∈ d) :
    currEvent d ts c p = [] := by
  have h1 : ¬ |p.size - p.size| > sizeThreshold := by
    norm_num [sub_self, sizeThreshold]
  have h2 : ¬ (|p.leverage - p.leverage| > leverageThreshold ∨
      |p.entry_price - p.entry_price| > entryPriceThreshold) := by
    norm_num [sub_self, leverageThreshold, entryPriceThreshold]
  rw [currEvent_some (dictLookup_eq_of_mem hnd hm), if_neg h1, if_neg h2]

theorem closedEvents_self (d : Dict PositionSnapshot) (ts : Int) :
    closedEvents d d ts = [] := by
  unfold closedEvents
  rw [List.filterMap_eq_nil_iff]
  intro entry hentry
  obtain ⟨c, p⟩ := entry
  rw [if_pos (dictContains_of_mem hentry)]

theorem detectChanges_self (d : Dict PositionSnapshot) (nowMs : Int)
    (hnd : (dictKeys d).Nodup) : detectChanges d d nowMs = [] := by
  unfold detectChanges
  rw [closedEvents_self, List.nil_append]
  apply flatMap_eq_nil_of_forall
  intro entry hentry
  obtain ⟨c, p⟩ := entry
  exact currEvent_self hnd hentry

theorem trackPositions_of_no_changes (st : TrackerState) (data : Payload)
    (nowMs : Int)
    (h : detectChanges st.last_positions (extractPositions data) nowMs = []) :
    trackPositions st data nowMs =
      ({ position_history := st.position_history
         last_positions := extractPositions data
         changes_log := st.changes_log }, []) := by
  simp only [trackPositions]
  rw [h]
  simp

/-! ## Claim theorems for the change detector -/

/-- C3: for a symbol present in both snapshots whose sizes differ by more
than `1e-8`, exactly the size-change event is emitted for that symbol, and
its kind (`_determine_change_type`) is `flipped` on a sign flip, `increased`
and `decreased` by size comparison for two longs, and by magnitude
comparison for two shorts. -/
theorem size_change_event_classification (last curr : Dict PositionSnapshot)
    (nowMs : Int) (c : String) (old_pos new_pos : PositionSnapshot)
    (hnd : (dictKeys curr).Nodup) (hmem : (c, new_pos) ∈ curr)
    (hold : dictLookup last c = some old_pos)
    (hsize : |new_pos.size - old_pos.size| > sizeThreshold) :
    eventsFor c (detectChanges last curr nowMs) =
      [sizeChange c old_pos new_pos (roundTimestamp curr nowMs)] ∧
    (((old_pos.size > 0 ∧ new_pos.size < 0) ∨
        (old_pos.size < 0 ∧ new_pos.size > 0)) →
      determineChangeType old_pos.size new_pos.size = .flipped) ∧
    (old_pos.size > 0 → new_pos.size > 0 → new_pos.size > old_pos.size →
      determineChangeType old_pos.size new_pos.size = .increased) ∧
    (old_pos.size > 0 → new_pos.size > 0 → new_pos.size < old_pos.size →
      determineChangeType old_pos.size new_pos.size = .decreased) ∧
    (old_pos.size < 0 → new_pos.size < 0 → |new_pos.size| > |old_pos.size| →
      determineChangeType old_pos.size new_pos.size = .increased) ∧
    (old_pos.size < 0 → new_pos.size < 0 → |new_pos.size| < |old_pos.size| →
      determineChangeType old_pos.size new_pos.size = .decreased) := by
  refine ⟨?_, ?_, ?_, ?_, ?_, ?_⟩
  · rw [eventsFor_detectChanges hnd hmem, currEvent_some hold, if_pos hsize]
  · intro h
    unfold determineChangeType
    rw [if_pos h]
  · intro h1 h2 h3
    have hA : ¬ ((old_pos.size > 0 ∧ new_pos.size < 0) ∨
        (old_pos.size < 0 ∧ new_pos.size > 0)) := by
      rintro (⟨_, hb⟩ | ⟨hb, _⟩) <;> linarith
    unfold determineChangeType
    rw [if_neg hA, if_pos ⟨h1, h2⟩, if_pos h3]
  · intro h1 h2 h3
    have hA : ¬ ((old_pos.size > 0 ∧ new_pos.size < 0) ∨
        (old_pos.size < 0 ∧ new_pos.size > 0)) := by
      rintro (⟨_, hb⟩ | ⟨hb, _⟩) <;> linarith
    unfold determineChangeType
    rw [if_neg hA, if_pos ⟨h1, h2⟩, if_neg (not_lt.mpr h3.le)]
  · intro h1 h2 h3
    have hA : ¬ ((old_pos.size > 0 ∧ new_pos.size < 0) ∨
        (old_pos.size < 0 ∧ new_pos.size > 0)) := by
      rintro (⟨ha, _⟩ | ⟨_, ha⟩) <;> linarith
    have hB : ¬ (old_pos.size > 0 ∧ new_pos.size > 0) := by
      rintro ⟨ha, _⟩
      linarith
    unfold determineChangeType
    rw [if_neg hA, if_neg hB, if_pos ⟨h1, h2⟩, if_pos h3]
  · intro h1 h2 h3
    have hA : ¬ ((old_pos.size > 0 ∧ new_pos.size < 0) ∨
        (old_pos.size < 0 ∧ new_pos.size > 0)) := by
      rintro (⟨ha, _⟩ | ⟨_, ha⟩) <;> linarith
    have hB : ¬ (old_pos.size > 0 ∧ new_pos.size > 0) := by
      rintro ⟨ha, _⟩
      linarith
    unfold determineChangeType
    rw [if_neg hA, if_neg hB, if_pos ⟨h1, h2⟩, if_neg (not_lt.mpr h3.le)]

/-- Witness for C3: a +5 position going to -2 emits exactly its size-change
event, whose kind is `flipped`. -/
theorem size_change_event_classification_witness :
    eventsFor "X" (detectChanges [("X", snapLong5)] [("X", snapShort2)] 0) =
      [sizeChange "X" snapLong5 snapShort2
        (roundTimestamp [("X", snapShort2)] 0)] ∧
    determineChangeType snapLong5.size snapShort2.size = .flipped := by
  have h := size_change_event_classification [("X", snapLong5)]
    [("X", snapShort2)] 0 "X" snapLong5 snapShort2 (by decide) (by decide)
    (by decide) (by norm_num [snapLong5, snapShort2, sizeThreshold])
  exact ⟨h.1, h.2.1 (by norm_num [snapLong5, snapShort2])⟩

/-- C4: for a symbol present in both snapshots whose sizes agree within the
`1e-8` threshold, exactly one `modified` event is emitted precisely when the
leverage delta exceeds `1e-8` or the entry-price delta exceeds `1e-6`, and
no event at all is emitted for that symbol otherwise. -/
theorem size_stable_modified_iff (last curr : Dict PositionSnapshot)
    (nowMs : Int) (c : String) (old_pos new_pos : PositionSnapshot)
    (hnd : (dictKeys curr).Nodup) (hmem : (c, new_pos) ∈ curr)
    (hold : dictLookup last c = some old_pos)
    (hsize : |new_pos.size - old_pos.size| ≤ sizeThreshold) :
    eventsFor c (detectChanges last curr nowMs) =
      (if |new_pos.leverage - old_pos.leverage| > leverageThreshold ∨
          |new_pos.entry_price - old_pos.entry_price| > entryPriceThreshold
        then [modifiedChange c old_pos new_pos (roundTimestamp curr nowMs)]
        else []) := by
  rw [eventsFor_detectChanges hnd hmem, currEvent_some hold,
    if_neg (not_lt.mpr hsize)]

/-- Witness for C4: size stays at 5 while leverage goes from 2 to 3, so
exactly one `modified` event is emitted for the symbol. -/
theorem size_stable_modified_iff_witness :
    eventsFor "X" (detectChanges [("X", snapLong5)] [("X", snapLong5Lev3)] 0) =
      (if |snapLong5Lev3.leverage - snapLong5.leverage| > leverageThreshold ∨
          |snapLong5Lev3.entry_price - snapLong5.entry_price| >
            entryPriceThreshold
        then [modifiedChange "X" snapLong5 snapLong5Lev3
          (roundTimestamp [("X", snapLong5Lev3)] 0)]
        else []) :=
  size_stable_modified_iff [("X", snapLong5)] [("X", snapLong5Lev3)] 0 "X"
    snapLong5 snapLong5Lev3 (by decide) (by decide) (by decide)
    (by norm_num [snapLong5, snapLong5Lev3, sizeThreshold])

/-- C6: every `closed` event has new size 0 and a non-null old size; every
`opened_*` event has null old size and null old notional, and it is
`opened_long` exactly when the new size is positive. -/
theorem change_event_invariants (last curr : Dict PositionSnapshot)
    (nowMs : Int) (ev : PositionChange)
    (hev : ev ∈ detectChanges last curr nowMs) :
    (ev.change_type = .closed → ev.new_size = 0 ∧ ev.old_size ≠ none) ∧
    ((ev.change_type = .opened_long ∨ ev.change_type = .opened_short) →
      ev.old_size = none ∧ ev.old_position_value = none ∧
        (ev.change_type = .opened_long ↔ ev.new_size > 0)) := by
  unfold detectChanges at hev
  rcases List.mem_append.mp hev with h | h
  · unfold closedEvents at h
    obtain ⟨entry, hentry, hf⟩ := List.mem_filterMap.mp h
    by_cases hc : dictContains curr entry.1
    · rw [if_pos hc] at hf
      cases hf
    · rw [if_neg hc] at hf
      obtain rfl := Option.some.inj hf
      constructor
      · intro _
        exact ⟨rfl, by simp [closedChange]⟩
      · intro hop
        rcases hop with hop | hop <;> simp [closedChange] at hop
  · obtain ⟨entry, hentry, hev2⟩ := List.mem_flatMap.mp h
    cases hl : dictLookup last entry.1 with
    | none =>
      rw [currEvent_none hl] at hev2
      obtain rfl := List.mem_singleton.mp hev2
      constructor
      · intro hcl
        by_cases hpos : entry.2.size > 0 <;>
          simp [openedChange, hpos] at hcl
      · intro _
        refine ⟨rfl, rfl, ?_⟩
        by_cases hpos : entry.2.size > 0
        · simp [openedChange, hpos]
        · simp [openedChange, hpos]
    | some old_pos =>
      rw [currEvent_some hl] at hev2
      split at hev2
      · obtain rfl := List.mem_singleton.mp hev2
        have hct : (sizeChange entry.1 old_pos entry.2
            (roundTimestamp curr nowMs)).change_type =
            determineChangeType old_pos.size entry.2.size := rfl
        constructor
        · intro hcl
          rw [hct] at hcl
          rcases determineChangeType_mem old_pos.size entry.2.size with
            hd | hd | hd | hd <;> rw [hd] at hcl <;> exact absurd hcl (by decide)
        · intro hop
          rcases hop with hop | hop <;> rw [hct] at hop <;>
            rcases determineChangeType_mem old_pos.size entry.2.size with
              hd | hd | hd | hd <;> rw [hd] at hop <;>
            exact absurd hop (by decide)
      · split at hev2
        · obtain rfl := List.mem_singleton.mp hev2
          constructor
          · intro hcl
            simp [modifiedChange] at hcl
          · intro hop
            rcases hop with hop | hop <;> simp [modifiedChange] at hop
        · cases hev2

/-- Witness for C6: the `closed` event produced when the only open position
disappears has new size 0, a non-null old size, and is not `opened_*`. -/
theorem change_event_invariants_witness :
    ((closedChange "X" snapLong5 500).change_type = .closed →
      (closedChange "X" snapLong5 500).new_size = 0 ∧
        (closedChange "X" snapLong5 500).old_size ≠ none) ∧
    (((closedChange "X" snapLong5 500).change_type = .opened_long ∨
        (closedChange "X" snapLong5 500).change_type = .opened_short) →
      (closedChange "X" snapLong5 500).old_size = none ∧
        (closedChange "X" snapLong5 500).old_position_value = none ∧
        ((closedChange "X" snapLong5 500).change_type = .opened_long ↔
          (closedChange "X" snapLong5 500).new_size > 0)) :=
  change_event_invariants [("X", snapLong5)] [] 500
    (closedChange "X" snapLong5 500) (by decide)

/-- C8: running `track_positions` twice in a row on the same payload
produces no changes on the second run and leaves the whole tracker state
(history, last positions, change log) and the derived coin set unchanged. -/
theorem track_positions_idempotent (st : TrackerState) (data : Payload)
    (n1 n2 : Int) :
    (trackPositions (trackPositions st data n1).1 data n2).2 = [] ∧
    (trackPositions (trackPositions st data n1).1 data n2).1 =
      (trackPositions st data n1).1 ∧
    lastPositionCoins
        (trackPositions (trackPositions st data n1).1 data n2).1 =
      lastPositionCoins (trackPositions st data n1).1 := by
  have hdet : detectChanges (trackPositions st data n1).1.last_positions
      (extractPositions data) n2 = [] := by
    have hlast : (trackPositions st data n1).1.last_positions =
        extractPositions data := rfl
    rw [hlast]
    exact detectChanges_self (extractPositions data) n2
      (extract_keys_nodup data)
  rw [trackPositions_of_no_changes _ _ _ hdet]
  exact ⟨rfl, rfl, rfl⟩

/-- C10: snapshot extraction never yields a zero-size snapshot, and for two
non-zero sizes differing by more than `1e-8` the classifier never falls
through to its final `modified` branch. -/
theorem classifier_fallback_unreachable :
    (∀ (data : Payload) (c : String) (p : PositionSnapshot),
      (c, p) ∈ extractPositions data → p.size ≠ 0) ∧
    (∀ old_size new_size : ℚ, old_size ≠ 0 → new_size ≠ 0 →
      |new_size - old_size| > sizeThreshold →
      determineChangeType old_size new_size ≠ .modified) := by
  refine ⟨extract_size_ne, ?_⟩
  intro o n ho hn _
  rcases ho.lt_or_lt with ho1 | ho1 <;> rcases hn.lt_or_lt with hn1 | hn1
  · have hA : ¬ ((o > 0 ∧ n < 0) ∨ (o < 0 ∧ n > 0)) := by
      rintro (⟨h, _⟩ | ⟨_, h⟩) <;> linarith
    have hB : ¬ (o > 0 ∧ n > 0) := by
      rintro ⟨h, _⟩
      linarith
    unfold determineChangeType
    rw [if_neg hA, if_neg hB, if_pos ⟨ho1, hn1⟩]
    split <;> decide
  · unfold determineChangeType
    rw [if_pos (Or.inr ⟨ho1, hn1⟩)]
    decide
  · unfold determineChangeType
    rw [if_pos (Or.inl ⟨ho1, hn1⟩)]
    decide
  · have hA : ¬ ((o > 0 ∧ n < 0) ∨ (o < 0 ∧ n > 0)) := by
      rintro (⟨_, h⟩ | ⟨h, _⟩) <;> linarith
    unfold determineChangeType
    rw [if_neg hA, if_pos ⟨ho1, hn1⟩]
    split <;> decide

/-- Witness for C10: sizes +5 then -2 are classified, not `modified`. -/
theorem classifier_fallback_unreachable_witness :
    determineChangeType 5 (-2) ≠ .modified :=
  classifier_fallback_unreachable.2 5 (-2) (by norm_num) (by norm_num)
    (by norm_num [sizeThreshold])

/-! ## Lemmas about the eligibility filter -/

theorem length_insertSorted {α : Type} (le : α → α → Bool) (x : α)
    (l : List α) : (insertSorted le x l).length = l.length + 1 := by
  induction l with
  | nil => rfl
  | cons y ys ih =>
    simp only [insertSorted]
    split
    · simp only [List.length_cons, ih]
    · simp [List.length_cons]

theorem length_stableSort {α : Type} (le : α → α → Bool) (l : List α) :
    (stableSort le l).length = l.length := by
  have haux : ∀ (l2 acc : List α),
      (l2.foldl (fun acc x => insertSorted le x acc) acc).length =
        acc.length + l2.length := by
    intro l2
    induction l2 with
    | nil => intro acc; simp
    | cons y ys ih =>
      intro acc
      rw [List.foldl_cons, ih, length_insertSorted, List.length_cons]
      omega
  unfold stableSort
  rw [haux]
  simp

/-! ## Claim theorems for the eligibility filter and the service -/

/-- C5: the eligibility filter's output never exceeds `max_pairs` entries
and contains no duplicates, for every state and configuration. -/
theorem filter_output_capped_and_nodup (st : ServiceState) (now : Int) :
    (filterPairsByCriteria st now).length ≤ st.max_pairs ∧
    (filterPairsByCriteria st now).Nodup := by
  constructor
  · unfold filterPairsByCriteria pySetList
    refine le_trans (List.Sublist.length_le (List.dedup_sublist _)) ?_
    split
    · rw [List.length_take]
      exact min_le_left _ _
    · rename_i hlen
      exact Nat.not_lt.mp hlen
  · unfold filterPairsByCriteria pySetList
    exact List.nodup_dedup _

/-- Counterexample to C1: with five base pairs, `max_pairs = 6` (so the
base-pair count is below the cap) and seven active tracked candidates,
truncation sorts the base pairs last and drops them: `BTC/USDC:USDC` is a
base pair yet is missing from the filter output. -/
theorem base_pair_dropped_under_truncation :
    c1State.base_pairs.length < c1State.max_pairs ∧
    "BTC/USDC:USDC" ∈ c1State.base_pairs ∧
    "BTC/USDC:USDC" ∉ filterPairsByCriteria c1State 1000 := by decide

/-- C1 (amended): whenever the pre-cap candidate count is at most
`max_pairs` (no truncation), every base pair appears in the filter output,
regardless of the tracked stats. -/
theorem base_pairs_included_when_not_truncated (st : ServiceState)
    (now : Int) (hlen : (eligiblePairs st now).length ≤ st.max_pairs)
    (b : String) (hb : b ∈ st.base_pairs) :
    b ∈ filterPairsByCriteria st now := by
  unfold filterPairsByCriteria pySetList
  rw [if_neg (Nat.not_lt.mpr hlen), List.mem_dedup]
  unfold eligiblePairs
  exact List.mem_append.mpr (Or.inl hb)

/-- Witness for amended C1: with the default cap of 50 the twelve
candidates fit and `BTC/USDC:USDC` is in the output. -/
theorem base_pairs_included_when_not_truncated_witness :
    "BTC/USDC:USDC" ∈ filterPairsByCriteria c1StateBig 1000 :=
  base_pairs_included_when_not_truncated c1StateBig 1000 (by decide)
    "BTC/USDC:USDC" (by decide)

/-- Counterexample to C2: after a refresh at time 10000 (only `AAA` open)
and another at time 20000 (only `ZZZ` open), the recomputed list contains
exactly the same symbols as the published one, in a different order, yet
`last_update` changes — the source compares lists with `!=`, not as sets. -/
theorem last_update_changes_on_reorder :
    (updatePairlist c2State1 ["ZZZ"] 20000).current_pairlist.toFinset =
      c2State1.current_pairlist.toFinset ∧
    (updatePairlist c2State1 ["ZZZ"] 20000).current_pairlist ≠
      c2State1.current_pairlist ∧
    (updatePairlist c2State1 ["ZZZ"] 20000).last_update ≠
      c2State1.last_update := by decide

/-- C2 (amended): `_update_pairlist` leaves `last_update` (and the
published list) unchanged exactly when the newly computed list equals the
previous one as an ordered list, and sets `last_update := now` whenever the
two lists differ as lists (even if they are equal as sets). -/
theorem pairlist_update_on_list_change (st : ServiceState)
    (currentCoins : List String) (now : Int) :
    (computedPairlist st currentCoins now = st.current_pairlist →
      (updatePairlist st currentCoins now).last_update = st.last_update ∧
      (updatePairlist st currentCoins now).current_pairlist =
        st.current_pairlist) ∧
    (computedPairlist st currentCoins now ≠ st.current_pairlist →
      (updatePairlist st currentCoins now).last_update = some now) := by
  constructor
  · intro h
    unfold updatePairlist
    rw [if_neg (fun hne => hne h)]
    exact ⟨rfl, rfl⟩
  · intro h
    unfold updatePairlist
    rw [if_pos h]

/-- Witness for amended C2: the first refresh changes the list, so
`last_update` is set. -/
theorem pairlist_update_on_list_change_witness :
    (updatePairlist c2State0 ["AAA"] 10000).last_update = some 10000 :=
  (pairlist_update_on_list_change c2State0 ["AAA"] 10000).2 (by decide)

/-- C7: a tracked symbol whose pair is not a base pair contributes to the
pre-cap candidates exactly when (it is old enough or currently active) and
it was seen within the last 30 days; in particular a symbol last seen more
than 30 days ago is excluded even if its active flag is set. -/
theorem tracked_pair_eligibility_iff (st : ServiceState) (now : Int)
    (c : String) (info : PairInfo)
    (hmem : (c, info) ∈ st.tracked_pairs)
    (hpairs : (st.tracked_pairs.map (fun e => e.2.pair)).Nodup)
    (hbase : info.pair ∉ st.base_pairs) :
    (info.pair ∈ eligiblePairs st now ↔
      ((now - info.first_seen ≥ minPairAgeSeconds st.min_pair_age_hours ∨
          info.is_active = true) ∧
        now - info.last_seen ≤ thirtyDaysSeconds)) ∧
    (now - info.last_seen > thirtyDaysSeconds →
      info.pair ∉ eligiblePairs st now) := by
  have hiff : info.pair ∈ eligiblePairs st now ↔
      meetsCriteria now st.min_pair_age_hours info := by
    unfold eligiblePairs
    rw [List.mem_append]
    constructor
    · rintro (h | h)
      · exact absurd h hbase
      · obtain ⟨e, he, hf⟩ := List.mem_filterMap.mp h
        by_cases h1 : e.2.pair ∈ st.base_pairs
        · rw [if_pos h1] at hf
          cases hf
        · rw [if_neg h1] at hf
          by_cases h2 : meetsCriteria now st.min_pair_age_hours e.2
          · rw [if_pos h2] at hf
            have he2 : e = (c, info) :=
              List.inj_on_of_nodup_map hpairs he hmem (Option.some.inj hf)
            rw [he2] at h2
            exact h2
          · rw [if_neg h2] at hf
            cases hf
    · intro hcrit
      refine Or.inr (List.mem_filterMap.mpr ⟨(c, info), hmem, ?_⟩)
      rw [if_neg hbase, if_pos hcrit]
  have hpretty : meetsCriteria now st.min_pair_age_hours info ↔
      ((now - info.first_seen ≥ minPairAgeSeconds st.min_pair_age_hours ∨
          info.is_active = true) ∧
        now - info.last_seen ≤ thirtyDaysSeconds) := Iff.rfl
  refine ⟨hiff.trans hpretty, ?_⟩
  intro hstale hm
  exact absurd ((hiff.trans hpretty).mp hm).2 (not_le.mpr hstale)

/-- Witness for C7: the active tracked coin `AAA` of the concrete state is
eligible at time 1000. -/
theorem tracked_pair_eligibility_iff_witness :
    ((activePair "AAA").pair ∈ eligiblePairs c1State 1000 ↔
      ((1000 - (activePair "AAA").first_seen ≥
          minPairAgeSeconds c1State.min_pair_age_hours ∨
        (activePair "AAA").is_active = true) ∧
        1000 - (activePair "AAA").last_seen ≤ thirtyDaysSeconds)) ∧
    (1000 - (activePair "AAA").last_seen > thirtyDaysSeconds →
      (activePair "AAA").pair ∉ eligiblePairs c1State 1000) :=
  tracked_pair_eligibility_iff c1State 1000 "AAA" (activePair "AAA")
    (by decide) (by decide) (by decide)

/-- C9: the position fetch is total (the model returns a plain value for
every outcome): on success it returns the extracted live coins; on failure
it returns the persisted coin set when that set is non-empty and the static
default set otherwise; and a missing file or failed read both yield the
empty persisted set (hence the static default). -/
theorem fetch_fallback_chain :
    (∀ (data : Payload) (file : FileReadOutcome),
      getCurrentPositions (.success data) file = serviceExtractCoins data) ∧
    (∀ file : FileReadOutcome, getFallbackPositions file ≠ [] →
      getCurrentPositions .failure file = getFallbackPositions file) ∧
    (∀ file : FileReadOutcome, getFallbackPositions file = [] →
      getCurrentPositions .failure file = getDefaultPopularPairs) ∧
    getFallbackPositions .failure = [] ∧
    getFallbackPositions .missing = [] := by
  refine ⟨fun _ _ => rfl, ?_, ?_, rfl, rfl⟩
  · intro file h
    unfold getCurrentPositions
    rw [if_neg (by simpa using h)]
  · intro file h
    unfold getCurrentPositions
    rw [if_pos (by simpa using h)]

/-- Witness for C9: with a failing fetch and a persisted file holding coins,
the persisted (deduplicated) set is returned. -/
theorem fetch_fallback_chain_witness :
    getCurrentPositions .failure (.rows ["ETH", "ETH", "BTC"]) =
      getFallbackPositions (.rows ["ETH", "ETH", "BTC"]) :=
  fetch_fallback_chain.2.1 (.rows ["ETH", "ETH", "BTC"]) (by decide)

end CopyWallet

